import Mathlib

/-!
Shallow embedding of the attestation evaluation engine of
`.github/actions/code-review/main.py` (functions `evaluate_attestation`
and `evaluate_all`), together with proofs about it.

JSON dictionaries are modelled by structures whose possibly-absent keys
are `Option` fields.  A Python expression that can raise is modelled by
`Except PyErr`.
-/

/-- Python runtime errors that the embedded code can raise. -/
inductive PyErr where
  | indexError
  deriving Repr, DecidableEq

instance {ε α : Type} [DecidableEq ε] [DecidableEq α] : DecidableEq (Except ε α) := fun x y =>
  match x, y with
  | .error a, .error b =>
    if h : a = b then isTrue (congrArg Except.error h)
    else isFalse (fun he => h (Except.error.inj he))
  | .error _, .ok _ => isFalse (fun he => Except.noConfusion he)
  | .ok _, .error _ => isFalse (fun he => Except.noConfusion he)
  | .ok a, .ok b =>
    if h : a = b then isTrue (congrArg Except.ok h)
    else isFalse (fun he => h (Except.ok.inj he))

/-- Python `str.strip()`: drop leading and trailing whitespace.
Implemented structurally over the character list so that it evaluates
inside the kernel. -/
def pyStrip (s : String) : String :=
  ⟨((s.data.dropWhile Char.isWhitespace).reverse.dropWhile Char.isWhitespace).reverse⟩

/-- A raw approver entry: a dict that may lack the `"username"` key. -/
structure Approver where
  username : Option String
  deriving Repr, DecidableEq

/-- A raw commit entry of a pull request: `c.get("author_username")`
yields `none` when the key is absent. -/
structure CommitEntry where
  author_username : Option String
  deriving Repr, DecidableEq

/-- A raw pull-request record inside an attestation. -/
structure PullRequest where
  url : Option String
  approvers : List Approver
  commits : List CommitEntry
  deriving Repr, DecidableEq

/-- A raw attestation record, as fetched from the compliance API. -/
structure Attestation where
  attestation_type : Option String
  is_compliant : Option Bool
  html_url : Option String
  pull_requests : List PullRequest
  deriving Repr, DecidableEq

/-- The result dict built by `evaluate_attestation` / `evaluate_all`.
`attestation_url` is a string or `null` (`none` = Python `None`);
`pr_url = none` means the `"pr_url"` key is absent from the dict. -/
structure EvaluationResult where
  commit : String
  pass : Bool
  reason : String
  attestation_url : Option String
  pr_url : Option String
  deriving Repr, DecidableEq

/-- Python string interpolation `f"{x}"` of an optional string:
`None` prints as `"None"`. -/
def pyFormatOptStr : Option String → String
  | none => "None"
  | some s => s

/-- The trimmed approver-username multiset of a PR, before set
materialization: `a["username"].strip() for a in approvers if "username" in a`. -/
def trimmedUsernames (pr : PullRequest) : List String :=
  (pr.approvers.filterMap Approver.username).map pyStrip

/-- The evaluation of one pull request (the body of the `for pr in
pull_requests` loop), parameterized by the set materialization `mat`
that models Python's `list({...})`: `mat` turns the trimmed username
list into some duplicate-free enumeration of its set.
`ok none` = the PR passes and the loop continues; `ok (some r)` = the
loop returns a failure with reason `r`; `error` = an exception. -/
def evalPRWith (mat : List String → List String) (pr : PullRequest) :
    Except PyErr (Option String) :=
  if pr.approvers.isEmpty then
    .ok (some "Pull request has no approvers")
  else
    let approver_usernames := mat (trimmedUsernames pr)
    if 2 ≤ approver_usernames.length then
      .ok none
    else
      let commit_authors := pr.commits.map CommitEntry.author_username
      match approver_usernames with
      | [] => .error .indexError
      | u :: _ =>
        if (some (pyStrip u)) ∈ commit_authors then
          .ok (some "The only approver of the PR is also a committer")
        else
          .ok none

/-- The whole `for` loop over the pull requests, with its short-circuit
returns. -/
def evalPRsWith (mat : List String → List String) :
    List PullRequest → Except PyErr (Option String)
  | [] => .ok none
  | pr :: rest =>
    match evalPRWith mat pr with
    | .error e => .error e
    | .ok (some r) => .ok (some r)
    | .ok none => evalPRsWith mat rest

/-- The `pr_url` key of the result dict: the value
`pull_requests[0].get("url", "") if pull_requests else ""`, attached
(`some`) only when that string is non-empty. -/
def prUrlField (a : Attestation) : Option String :=
  let pr_url :=
    match a.pull_requests with
    | [] => ""
    | pr :: _ => pr.url.getD ""
  if pr_url = "" then none else some pr_url

/-- The function `evaluate_attestation(commit_hash, attestation)`,
parameterized by the set materialization used for `list({...})`. -/
def evaluateAttestationWith (mat : List String → List String)
    (commit_hash : String) (a : Attestation) : Except PyErr EvaluationResult :=
  let pull_requests := a.pull_requests
  let attestation_url := some (a.html_url.getD "")
  let base : EvaluationResult :=
    ⟨commit_hash, false, "", attestation_url, prUrlField a⟩
  let att_type := a.attestation_type
  let is_compliant := a.is_compliant.getD false
  if att_type = some "override" then
    if is_compliant then
      .ok { base with pass := true, reason := "Overridden as compliant" }
    else
      .ok { base with reason := "Overridden as non-compliant" }
  else if att_type = some "pull_request" then
    if pull_requests.isEmpty then
      .ok { base with reason := "No pull requests in attestation" }
    else
      match evalPRsWith mat pull_requests with
      | .error e => .error e
      | .ok (some r) => .ok { base with reason := r }
      | .ok none =>
        .ok { base with
                pass := true
                reason := "Pull request demonstrates never-alone code review" }
  else
    .ok { base with
            reason := "Attestation is " ++ pyFormatOptStr att_type ++
              ", not a pull request or pull-request override" }

/-- The concrete `evaluate_attestation`, with `List.dedup` as a fixed
set materialization. -/
def evaluate_attestation (commit_hash : String) (a : Attestation) :
    Except PyErr EvaluationResult :=
  evaluateAttestationWith List.dedup commit_hash a

/-- The concrete per-PR check with the `List.dedup` materialization. -/
def evalPR (pr : PullRequest) : Except PyErr (Option String) :=
  evalPRWith List.dedup pr

/-- The distinct trimmed approver usernames of a PR. -/
def approverUsernames (pr : PullRequest) : List String :=
  (trimmedUsernames pr).dedup

/-- The function `evaluate_all(data)`, the Python dict modelled as an
insertion-ordered association list. -/
def evaluate_all : List (String × List Attestation) →
    Except PyErr (List EvaluationResult)
  | [] => .ok []
  | (commit_hash, attestations) :: rest =>
    match attestations with
    | [] =>
      match evaluate_all rest with
      | .error e => .error e
      | .ok others =>
        .ok (⟨commit_hash, false, "No attestations found", none, none⟩ :: others)
    | att :: _ =>
      match evaluate_attestation commit_hash att with
      | .error e => .error e
      | .ok r =>
        match evaluate_all rest with
        | .error e => .error e
        | .ok others => .ok (r :: others)

/-- A function modelling Python `list(set(...))`: it returns the
elements of its argument without duplicates, in an arbitrary order. -/
def IsSetMat (mat : List String → List String) : Prop :=
  ∀ l, (mat l).Nodup ∧ ∀ x, x ∈ mat l ↔ x ∈ l

/-! ### Concrete records used by the witnesses -/

def c2PR : PullRequest := ⟨some "u", [⟨some "x"⟩], [⟨some "z"⟩]⟩

def c2Att : Attestation :=
  ⟨some "pull_request", none, some "h", [c2PR, ⟨some "v", [], []⟩]⟩

def c2Res : EvaluationResult :=
  ⟨"c", false, "Pull request has no approvers", some "h", some "u"⟩

def c6Att : Attestation :=
  ⟨some "pull_request", none, some "h",
    [⟨some "u", [⟨some "  a  "⟩], [⟨some "a"⟩]⟩]⟩

def c8Att : Attestation :=
  ⟨some "pull_request", none, some "h",
    [⟨some "u", [⟨some "a"⟩, ⟨some " a "⟩, ⟨some "b"⟩], [⟨some "a"⟩]⟩]⟩

def c7Data : List (String × List Attestation) :=
  [("A", []),
   ("B", [⟨some "override", some false, some "hB", []⟩,
          ⟨some "override", some true, some "hB2", []⟩])]

def c7Results : List EvaluationResult :=
  [⟨"A", false, "No attestations found", none, none⟩,
   ⟨"B", false, "Overridden as non-compliant", some "hB", none⟩]

/-! ### Branch characterizations of `evaluateAttestationWith` -/

lemma prUrlField_nil (a : Attestation) (h : a.pull_requests = []) :
    prUrlField a = none := by
  simp [prUrlField, h]

lemma prUrlField_cons (a : Attestation) (pr : PullRequest)
    (rest : List PullRequest) (h : a.pull_requests = pr :: rest) :
    prUrlField a =
      if pr.url.getD "" = "" then none else some (pr.url.getD "") := by
  simp [prUrlField, h]

lemma evalWith_override (mat : List String → List String) (c : String)
    (a : Attestation) (h : a.attestation_type = some "override") :
    evaluateAttestationWith mat c a =
      .ok ⟨c, a.is_compliant.getD false,
        (if a.is_compliant.getD false then "Overridden as compliant"
         else "Overridden as non-compliant"),
        some (a.html_url.getD ""), prUrlField a⟩ := by
  simp only [evaluateAttestationWith, h, if_pos rfl]
  by_cases hc : a.is_compliant.getD false <;> simp [hc]

lemma evalWith_pr_empty (mat : List String → List String) (c : String)
    (a : Attestation) (h : a.attestation_type = some "pull_request")
    (he : a.pull_requests = []) :
    evaluateAttestationWith mat c a =
      .ok ⟨c, false, "No pull requests in attestation",
        some (a.html_url.getD ""), prUrlField a⟩ := by
  simp [evaluateAttestationWith, h, he]

lemma evalWith_pr_nonempty (mat : List String → List String) (c : String)
    (a : Attestation) (h : a.attestation_type = some "pull_request")
    (hne : a.pull_requests ≠ []) :
    evaluateAttestationWith mat c a =
      match evalPRsWith mat a.pull_requests with
      | .error e => .error e
      | .ok (some r) =>
        .ok ⟨c, false, r, some (a.html_url.getD ""), prUrlField a⟩
      | .ok none =>
        .ok ⟨c, true, "Pull request demonstrates never-alone code review",
          some (a.html_url.getD ""), prUrlField a⟩ := by
  simp [evaluateAttestationWith, h, List.isEmpty_iff, hne]

lemma evalWith_other (mat : List String → List String) (c : String)
    (a : Attestation) (h1 : a.attestation_type ≠ some "override")
    (h2 : a.attestation_type ≠ some "pull_request") :
    evaluateAttestationWith mat c a =
      .ok ⟨c, false,
        "Attestation is " ++ pyFormatOptStr a.attestation_type ++
          ", not a pull request or pull-request override",
        some (a.html_url.getD ""), prUrlField a⟩ := by
  simp only [evaluateAttestationWith]
  rw [if_neg h1, if_neg h2]

/-! ### Lemmas about the per-PR check and the loop -/

lemma approvers_isEmpty_false_of_usernames_ne_nil (pr : PullRequest)
    (h : approverUsernames pr ≠ []) : pr.approvers.isEmpty = false := by
  rcases he : pr.approvers with _ | ⟨a, l⟩
  · exact absurd (by simp [approverUsernames, trimmedUsernames, he]) h
  · rfl

lemma evalPR_of_ge_two (pr : PullRequest)
    (h : 2 ≤ (approverUsernames pr).length) : evalPR pr = .ok none := by
  have hne : pr.approvers.isEmpty = false :=
    approvers_isEmpty_false_of_usernames_ne_nil pr (by
      intro h0
      rw [approverUsernames] at h0
      rw [approverUsernames, h0] at h
      simp at h)
  simp only [evalPR, evalPRWith, hne, Bool.false_eq_true, if_false]
  rw [if_pos (by rw [approverUsernames] at h; exact h)]

lemma evalPR_of_single (pr : PullRequest) (u : String)
    (h : approverUsernames pr = [u]) :
    evalPR pr =
      if some (pyStrip u) ∈ pr.commits.map CommitEntry.author_username then
        .ok (some "The only approver of the PR is also a committer")
      else .ok none := by
  have hne : pr.approvers.isEmpty = false :=
    approvers_isEmpty_false_of_usernames_ne_nil pr (by rw [h]; simp)
  rw [approverUsernames] at h
  simp only [evalPR, evalPRWith, hne, Bool.false_eq_true, if_false]
  rw [h]
  norm_num

lemma evalPRsWith_append_pass (mat : List String → List String)
    (passed rest : List PullRequest)
    (hp : ∀ p ∈ passed, evalPRWith mat p = .ok none) :
    evalPRsWith mat (passed ++ rest) = evalPRsWith mat rest := by
  induction passed with
  | nil => rfl
  | cons p ps ih =>
    have hp0 : evalPRWith mat p = .ok none := hp p (List.mem_cons_self p ps)
    simp only [List.cons_append, evalPRsWith, hp0]
    exact ih (fun q hq => hp q (List.mem_cons_of_mem p hq))

lemma result_fields_of_ok (mat : List String → List String) (c : String)
    (a : Attestation) (r : EvaluationResult)
    (hok : evaluateAttestationWith mat c a = .ok r) :
    r.commit = c ∧ r.attestation_url = some (a.html_url.getD "") ∧
      r.pr_url = prUrlField a := by
  by_cases h1 : a.attestation_type = some "override"
  · rw [evalWith_override mat c a h1] at hok
    injection hok with h
    subst h
    exact ⟨rfl, rfl, rfl⟩
  · by_cases h2 : a.attestation_type = some "pull_request"
    · by_cases h3 : a.pull_requests = []
      · rw [evalWith_pr_empty mat c a h2 h3] at hok
        injection hok with h
        subst h
        exact ⟨rfl, rfl, rfl⟩
      · rw [evalWith_pr_nonempty mat c a h2 h3] at hok
        cases hE : evalPRsWith mat a.pull_requests with
        | error e => rw [hE] at hok; exact Except.noConfusion hok
        | ok o =>
          rw [hE] at hok
          cases o with
          | some s => injection hok with h; subst h; exact ⟨rfl, rfl, rfl⟩
          | none => injection hok with h; subst h; exact ⟨rfl, rfl, rfl⟩
    · rw [evalWith_other mat c a h1 h2] at hok
      injection hok with h
      subst h
      exact ⟨rfl, rfl, rfl⟩

/-! ### The claims -/

/-- C1.  The claim says: a pull request whose approver-username set is
empty after dropping entries without a username makes `classify` return
a fail with reason "Pull request has no approvers" without raising.
The code only checks the raw `approvers` list: when that list is
non-empty but every entry lacks the `username` key, the username set is
empty and `approver_usernames[0]` raises an `IndexError` instead.  The
first conjunct evaluates the code at such an input; the second shows
the graceful branch the claim describes is taken only when the raw
list itself is empty. -/
theorem username_free_approvers_raise_index_error :
    evaluate_attestation "c"
        ⟨some "pull_request", none, some "h", [⟨some "u", [⟨none⟩], []⟩]⟩ =
      .error .indexError ∧
    evaluate_attestation "c"
        ⟨some "pull_request", none, some "h", [⟨some "u", [], []⟩]⟩ =
      .ok ⟨"c", false, "Pull request has no approvers", some "h", some "u"⟩ := by
  decide

/-- C4.  For every attestation of type "override", `classify` passes
iff `is_compliant` (absent defaults to false) and the reason is the
corresponding fixed override string. -/
theorem override_pass_iff_is_compliant (c : String) (a : Attestation)
    (h : a.attestation_type = some "override") :
    evaluate_attestation c a =
      .ok ⟨c, a.is_compliant.getD false,
        (if a.is_compliant.getD false then "Overridden as compliant"
         else "Overridden as non-compliant"),
        some (a.html_url.getD ""), prUrlField a⟩ :=
  evalWith_override List.dedup c a h

theorem override_pass_iff_is_compliant_witness :
    Attestation.attestation_type ⟨some "override", none, some "h", []⟩ =
        some "override" ∧
    evaluate_attestation "c" ⟨some "override", none, some "h", []⟩ =
      .ok ⟨"c", false, "Overridden as non-compliant", some "h", none⟩ := by
  refine ⟨rfl, ?_⟩
  rw [override_pass_iff_is_compliant "c" ⟨some "override", none, some "h", []⟩ rfl]
  decide

/-- C5.  A pull request whose set of distinct trimmed approver
usernames has 2 or more elements passes its sub-check (for any commit
list, hence independent of approver/committer overlap), and the loop
continues with the remaining pull requests. -/
theorem two_distinct_approvers_pr_passes (pr : PullRequest)
    (rest : List PullRequest)
    (h : 2 ≤ (approverUsernames pr).length) :
    evalPR pr = .ok none ∧
    evalPRsWith List.dedup (pr :: rest) = evalPRsWith List.dedup rest := by
  have h1 := evalPR_of_ge_two pr h
  refine ⟨h1, ?_⟩
  simp only [evalPRsWith, show evalPRWith List.dedup pr = .ok none from h1]

theorem two_distinct_approvers_pr_passes_witness :
    2 ≤ (approverUsernames ⟨some "u", [⟨some "a"⟩, ⟨some "b"⟩],
          [⟨some "a"⟩, ⟨some "b"⟩]⟩).length ∧
    evalPR ⟨some "u", [⟨some "a"⟩, ⟨some "b"⟩], [⟨some "a"⟩, ⟨some "b"⟩]⟩ =
      .ok none := by
  refine ⟨by decide, ?_⟩
  exact (two_distinct_approvers_pr_passes
    ⟨some "u", [⟨some "a"⟩, ⟨some "b"⟩], [⟨some "a"⟩, ⟨some "b"⟩]⟩ []
    (by decide)).1

/-- C10.  In the sole-approver check only the approver side is trimmed:
the (already trimmed) sole approver username is compared against the
raw `author_username` values of the commit entries, where an entry
without the key contributes `none`, and no error is raised. -/
theorem sole_approver_checked_against_raw_authors (pr : PullRequest)
    (u : String) (h : approverUsernames pr = [u]) :
    evalPR pr =
      if some (pyStrip u) ∈ pr.commits.map CommitEntry.author_username then
        .ok (some "The only approver of the PR is also a committer")
      else .ok none :=
  evalPR_of_single pr u h

theorem sole_approver_checked_against_raw_authors_witness :
    approverUsernames ⟨some "u", [⟨some "a"⟩], [⟨some "  a  "⟩, ⟨none⟩]⟩ =
        ["a"] ∧
    evalPR ⟨some "u", [⟨some "a"⟩], [⟨some "  a  "⟩, ⟨none⟩]⟩ = .ok none := by
  refine ⟨by decide, ?_⟩
  rw [sole_approver_checked_against_raw_authors
    ⟨some "u", [⟨some "a"⟩], [⟨some "  a  "⟩, ⟨none⟩]⟩ "a" (by decide)]
  decide

/-- C2, counterexample.  An attestation with a non-empty
`pull_requests` sequence whose first pull request has no url: the
claim requires a `pr_url` field equal to that (empty) url, but the
code attaches no `pr_url` key at all (`pr_url = none`). -/
theorem pr_url_missing_despite_pull_requests_cex :
    (Attestation.pull_requests
        ⟨some "override", some true, some "h", [⟨none, [], []⟩]⟩).length = 1 ∧
    evaluate_attestation "c"
        ⟨some "override", some true, some "h", [⟨none, [], []⟩]⟩ =
      .ok ⟨"c", true, "Overridden as compliant", some "h", none⟩ := by
  decide

/-- C2, amended.  For every attestation with a non-empty
`pull_requests` sequence, a returned result carries `pr_url` equal to
the first pull request url exactly when that url (defaulting to the
empty string) is non-empty; otherwise the `pr_url` key is absent.
This holds regardless of the pass/fail branch reached and of which
later pull request caused a failure. -/
theorem pr_url_is_first_pr_url_when_nonempty (c : String) (a : Attestation)
    (pr : PullRequest) (rest : List PullRequest) (r : EvaluationResult)
    (hprs : a.pull_requests = pr :: rest)
    (hok : evaluate_attestation c a = .ok r) :
    r.pr_url =
      if pr.url.getD "" = "" then none else some (pr.url.getD "") := by
  have h1 : r.pr_url = prUrlField a :=
    (result_fields_of_ok List.dedup c a r hok).2.2
  rw [h1, prUrlField_cons a pr rest hprs]

theorem pr_url_is_first_pr_url_when_nonempty_witness :
    c2Att.pull_requests = c2PR :: [⟨some "v", [], []⟩] ∧
    evaluate_attestation "c" c2Att = .ok c2Res ∧
    c2Res.pr_url =
      if c2PR.url.getD "" = "" then none else some (c2PR.url.getD "") := by
  refine ⟨rfl, by decide, ?_⟩
  exact pr_url_is_first_pr_url_when_nonempty "c" c2Att c2PR
    [⟨some "v", [], []⟩] c2Res rfl (by decide)

/-- C3, counterexample.  An attestation of unrecognized type "audit"
that nevertheless carries a pull request with a non-empty url: the
claim requires the result to contain no `pr_url` field, but the code
attaches `pr_url` before branching on the type, so the field is
present. -/
theorem unknown_type_pr_url_present_cex :
    evaluate_attestation "c"
        ⟨some "audit", none, some "h", [⟨some "u", [], []⟩]⟩ =
      .ok ⟨"c", false,
        "Attestation is audit, not a pull request or pull-request override",
        some "h", some "u"⟩ ∧
    EvaluationResult.pr_url ⟨"c", false,
        "Attestation is audit, not a pull request or pull-request override",
        some "h", some "u"⟩ = some "u" := by
  decide

/-- C3, amended.  For every attestation whose type is neither
"override" nor "pull_request", `classify` returns a fail whose reason
interpolates the literal type, and the result contains no `pr_url`
field whenever the attestation has no pull requests (when it does, the
`pr_url` key is attached by the same rule as everywhere else). -/
theorem unknown_type_fails_with_interpolated_reason (c : String)
    (a : Attestation) (h1 : a.attestation_type ≠ some "override")
    (h2 : a.attestation_type ≠ some "pull_request") :
    evaluate_attestation c a =
      .ok ⟨c, false,
        "Attestation is " ++ pyFormatOptStr a.attestation_type ++
          ", not a pull request or pull-request override",
        some (a.html_url.getD ""), prUrlField a⟩ ∧
    (a.pull_requests = [] → prUrlField a = none) :=
  ⟨evalWith_other List.dedup c a h1 h2, prUrlField_nil a⟩

theorem unknown_type_fails_with_interpolated_reason_witness :
    evaluate_attestation "c" ⟨some "audit", none, some "h", []⟩ =
      .ok ⟨"c", false,
        "Attestation is audit, not a pull request or pull-request override",
        some "h", none⟩ := by
  rw [(unknown_type_fails_with_interpolated_reason "c"
    ⟨some "audit", none, some "h", []⟩ (by decide) (by decide)).1]
  decide

/-- C6.  Pull requests are evaluated in order with a short-circuit at
the first failing one: if every pull request before `pr` passes its
sub-check and `pr` has exactly one distinct trimmed approver username
`u` that occurs among the raw `author_username` values of its commits,
the attestation fails with the sole-approver reason.  The witness
instantiates the spec scenario (one PR, approver "  a  ", committer
"a") and also checks `pr_url`. -/
theorem sole_approver_is_committer_fails (c : String) (a : Attestation)
    (passed : List PullRequest) (pr : PullRequest) (rest : List PullRequest)
    (u : String)
    (hty : a.attestation_type = some "pull_request")
    (hprs : a.pull_requests = passed ++ pr :: rest)
    (hpassed : ∀ p ∈ passed, evalPR p = .ok none)
    (husers : approverUsernames pr = [u])
    (hmem : some (pyStrip u) ∈ pr.commits.map CommitEntry.author_username) :
    evaluate_attestation c a =
      .ok ⟨c, false, "The only approver of the PR is also a committer",
        some (a.html_url.getD ""), prUrlField a⟩ := by
  have hne : a.pull_requests ≠ [] := by
    rw [hprs]
    simp
  have hpr : evalPRWith List.dedup pr =
      .ok (some "The only approver of the PR is also a committer") := by
    have := evalPR_of_single pr u husers
    rw [evalPR] at this
    rw [this, if_pos hmem]
  have hloop : evalPRsWith List.dedup a.pull_requests =
      .ok (some "The only approver of the PR is also a committer") := by
    rw [hprs, evalPRsWith_append_pass List.dedup passed _ hpassed]
    simp only [evalPRsWith, hpr]
  rw [evaluate_attestation, evalWith_pr_nonempty List.dedup c a hty hne, hloop]

theorem sole_approver_is_committer_fails_witness :
    evaluate_attestation "c" c6Att =
      .ok ⟨"c", false, "The only approver of the PR is also a committer",
        some "h", some "u"⟩ := by
  rw [sole_approver_is_committer_fails "c" c6Att []
    ⟨some "u", [⟨some "  a  "⟩], [⟨some "a"⟩]⟩ [] "a" rfl rfl
    (by simp) (by decide) (by decide)]
  decide

/-! ### Determinism of the classifier (C8) -/

lemma isSetMat_dedup : IsSetMat List.dedup :=
  fun l => ⟨l.nodup_dedup, fun _ => List.mem_dedup⟩

lemma isSetMat_dedup_reverse : IsSetMat (fun l => l.dedup.reverse) :=
  fun l => ⟨List.nodup_reverse.mpr l.nodup_dedup,
    fun x => by rw [List.mem_reverse, List.mem_dedup]⟩

lemma evalPRWith_eq_of_setMat (mat₁ mat₂ : List String → List String)
    (h₁ : IsSetMat mat₁) (h₂ : IsSetMat mat₂) (pr : PullRequest) :
    evalPRWith mat₁ pr = evalPRWith mat₂ pr := by
  simp only [evalPRWith]
  by_cases he : pr.approvers.isEmpty = true
  · rw [if_pos he, if_pos he]
  · rw [if_neg he, if_neg he]
    have hperm : (mat₁ (trimmedUsernames pr)).Perm (mat₂ (trimmedUsernames pr)) := by
      refine (List.perm_ext_iff_of_nodup (h₁ _).1 (h₂ _).1).mpr ?_
      intro x
      rw [(h₁ _).2 x, (h₂ _).2 x]
    have hlen := hperm.length_eq
    by_cases h2 : 2 ≤ (mat₁ (trimmedUsernames pr)).length
    · rw [if_pos h2, if_pos (hlen ▸ h2)]
    · rw [if_neg h2, if_neg (hlen ▸ h2)]
      have hll : mat₁ (trimmedUsernames pr) = mat₂ (trimmedUsernames pr) := by
        rcases hl : mat₁ (trimmedUsernames pr) with _ | ⟨x, _ | ⟨y, t⟩⟩
        · rw [hl] at hperm
          exact hperm.nil_eq
        · rw [hl] at hperm
          exact (List.perm_singleton.mp hperm.symm).symm
        · rw [hl] at h2
          exact absurd (by simp) h2
      rw [hll]

lemma evalPRsWith_eq_of_setMat (mat₁ mat₂ : List String → List String)
    (h₁ : IsSetMat mat₁) (h₂ : IsSetMat mat₂) (l : List PullRequest) :
    evalPRsWith mat₁ l = evalPRsWith mat₂ l := by
  induction l with
  | nil => rfl
  | cons pr rest ih =>
    simp only [evalPRsWith, evalPRWith_eq_of_setMat mat₁ mat₂ h₁ h₂ pr, ih]

/-- C8.  The classifier is deterministic although the approver
usernames pass through an unordered set: for any two admissible
materializations of `list({...})` (duplicate-free enumerations of the
same set, in any order), evaluating the same commit and attestation
yields the same result record, all fields included. -/
theorem classify_deterministic_despite_set_order
    (mat₁ mat₂ : List String → List String)
    (h₁ : IsSetMat mat₁) (h₂ : IsSetMat mat₂) (c : String) (a : Attestation) :
    evaluateAttestationWith mat₁ c a = evaluateAttestationWith mat₂ c a := by
  simp only [evaluateAttestationWith,
    evalPRsWith_eq_of_setMat mat₁ mat₂ h₁ h₂]

theorem classify_deterministic_despite_set_order_witness :
    evaluateAttestationWith List.dedup "c" c8Att =
      evaluateAttestationWith (fun l => l.dedup.reverse) "c" c8Att :=
  classify_deterministic_despite_set_order List.dedup
    (fun l => l.dedup.reverse) isSetMat_dedup isSetMat_dedup_reverse "c" c8Att

/-! ### The aggregator (C7, C9) -/

/-- C9.  Every result produced by `classify` carries
`attestation_url = html_url` (defaulting to the empty string), never
null; within `evaluate_all`, a null `attestation_url` happens only on
the synthesized "No attestations found" result of a commit whose
attestation sequence is empty. -/
theorem attestation_url_null_only_when_no_attestations :
    (∀ (c : String) (a : Attestation) (r : EvaluationResult),
        evaluate_attestation c a = .ok r →
        r.attestation_url = some (a.html_url.getD "")) ∧
    (∀ (data : List (String × List Attestation))
        (results : List EvaluationResult),
        evaluate_all data = .ok results →
        ∀ r ∈ results, r.attestation_url = none →
          r.pass = false ∧ r.reason = "No attestations found" ∧
            (r.commit, ([] : List Attestation)) ∈ data) := by
  constructor
  · intro c a r hok
    exact (result_fields_of_ok List.dedup c a r hok).2.1
  · intro data
    induction data with
    | nil =>
      intro results hok r hr _
      injection hok with h
      subst h
      simp at hr
    | cons entry rest ih =>
      intro results hok r hr hnull
      obtain ⟨ch, atts⟩ := entry
      cases atts with
      | nil =>
        simp only [evaluate_all] at hok
        cases hres : evaluate_all rest with
        | error e => rw [hres] at hok; exact Except.noConfusion hok
        | ok others =>
          rw [hres] at hok
          injection hok with h
          subst h
          rcases List.mem_cons.mp hr with h | h
          · subst h
            exact ⟨rfl, rfl, by simp⟩
          · obtain ⟨hp, hrsn, hmem⟩ := ih others hres r h hnull
            exact ⟨hp, hrsn, List.mem_cons_of_mem _ hmem⟩
      | cons att tl =>
        simp only [evaluate_all] at hok
        cases hatt : evaluate_attestation ch att with
        | error e => rw [hatt] at hok; exact Except.noConfusion hok
        | ok r0 =>
          rw [hatt] at hok
          cases hres : evaluate_all rest with
          | error e => rw [hres] at hok; exact Except.noConfusion hok
          | ok others =>
            rw [hres] at hok
            injection hok with h
            subst h
            rcases List.mem_cons.mp hr with h | h
            · subst h
              have hurl := (result_fields_of_ok List.dedup ch att r hatt).2.1
              rw [hurl] at hnull
              exact Option.noConfusion hnull
            · obtain ⟨hp, hrsn, hmem⟩ := ih others hres r h hnull
              exact ⟨hp, hrsn, List.mem_cons_of_mem _ hmem⟩

theorem attestation_url_null_only_when_no_attestations_witness :
    EvaluationResult.attestation_url
        ⟨"c", true, "Overridden as compliant", some "h", none⟩ =
      some ((Attestation.html_url
        ⟨some "override", some true, some "h", []⟩).getD "") :=
  attestation_url_null_only_when_no_attestations.1 "c"
    ⟨some "override", some true, some "h", []⟩
    ⟨"c", true, "Overridden as compliant", some "h", none⟩ (by decide)

/-- C7.  `evaluate_all` returns exactly one result per input key, in
the mapping order: at each index, an empty attestation sequence yields
the synthesized "No attestations found" fail with null
`attestation_url` and no `pr_url`, and a non-empty sequence yields the
classifier output on its first attestation, the others being ignored
(the result depends only on the head `att`). -/
theorem evaluate_all_one_result_per_key
    (data : List (String × List Attestation))
    (results : List EvaluationResult)
    (hok : evaluate_all data = .ok results) :
    results.length = data.length ∧
    ∀ i c atts, data.get? i = some (c, atts) →
      (atts = [] →
        results.get? i =
          some ⟨c, false, "No attestations found", none, none⟩) ∧
      ∀ att tl, atts = att :: tl →
        results.get? i = (evaluate_attestation c att).toOption := by
  induction data generalizing results with
  | nil =>
    injection hok with h
    subst h
    refine ⟨rfl, ?_⟩
    intro i c atts h
    rw [List.get?_nil] at h
    exact Option.noConfusion h
  | cons entry rest ih =>
    obtain ⟨ch, atts⟩ := entry
    cases atts with
    | nil =>
      simp only [evaluate_all] at hok
      cases hres : evaluate_all rest with
      | error e => rw [hres] at hok; exact Except.noConfusion hok
      | ok others =>
        rw [hres] at hok
        injection hok with h
        subst h
        obtain ⟨hlen, hspec⟩ := ih others hres
        refine ⟨by simp [hlen], ?_⟩
        intro i c atts' hi
        cases i with
        | zero =>
          rw [List.get?_cons_zero] at hi
          injection hi with hpair
          injection hpair with hc hatts
          subst hc
          subst hatts
          exact ⟨fun _ => rfl, fun att tl habs => List.noConfusion habs⟩
        | succ n =>
          rw [List.get?_cons_succ] at hi
          exact hspec n c atts' hi
    | cons att tl =>
      simp only [evaluate_all] at hok
      cases hatt : evaluate_attestation ch att with
      | error e => rw [hatt] at hok; exact Except.noConfusion hok
      | ok r0 =>
        rw [hatt] at hok
        cases hres : evaluate_all rest with
        | error e => rw [hres] at hok; exact Except.noConfusion hok
        | ok others =>
          rw [hres] at hok
          injection hok with h
          subst h
          obtain ⟨hlen, hspec⟩ := ih others hres
          refine ⟨by simp [hlen], ?_⟩
          intro i c atts' hi
          cases i with
          | zero =>
            rw [List.get?_cons_zero] at hi
            injection hi with hpair
            injection hpair with hc hatts
            subst hc
            subst hatts
            refine ⟨fun habs => List.noConfusion habs, ?_⟩
            intro att' tl' heq
            injection heq with ha ht
            subst ha
            rw [List.get?_cons_zero, hatt]
            rfl
          | succ n =>
            rw [List.get?_cons_succ] at hi
            exact hspec n c atts' hi

theorem evaluate_all_one_result_per_key_witness :
    c7Results.length = c7Data.length ∧
    c7Results.get? 0 = some ⟨"A", false, "No attestations found", none, none⟩ ∧
    c7Results.get? 1 =
      some ⟨"B", false, "Overridden as non-compliant", some "hB", none⟩ := by
  have h := evaluate_all_one_result_per_key c7Data c7Results (by decide)
  refine ⟨h.1, (h.2 0 "A" [] (by decide)).1 rfl, ?_⟩
  have h1 := (h.2 1 "B" [⟨some "override", some false, some "hB", []⟩,
    ⟨some "override", some true, some "hB2", []⟩] (by decide)).2
    ⟨some "override", some false, some "hB", []⟩
    [⟨some "override", some true, some "hB2", []⟩] rfl
  rw [h1]
  decide
